import Mathlib

/-!
Verification of `thinc/layers/embed.py`: a trainable lookup-table
("embedding") layer.  The layer's own code (`forward`, `backprop`, the
`init` closure built by `create_init`) is embedded below over lists of
integer-valued rows.  External collaborators that the layer calls but
whose code is not part of this file's source (`model.ops.allocate`,
`model.ops.scatter_add`, `get_width`, and the dimension/param registry
accessed through `get_dim`/`set_dim`/`get_param`/`set_param`/`inc_grad`)
are modelled from their documented contracts, each marked
`Modelled from the spec:` in its doc comment.
-/

namespace ThincEmbed

/-- A row of an array of floats (modelled exactly over `ℤ`: every claim under verification is structural — sums, shapes and row placement — and independent of the scalar type). -/
abbrev Row := List ℤ

/-- A 2-D array of floats: a list of rows. -/
abbrev Table := List Row

/-- A zero-filled row of width `nO` (the result of `ops.allocate` for one row). -/
def zeroRow (nO : Nat) : Row := List.replicate nO 0

/-- Modelled from the spec: the allocation primitive `allocate(shape)` —
a zero-filled table of shape `(nV, nO)`. -/
def zeroTable (nV nO : Nat) : Table := List.replicate nV (zeroRow nO)

/-- The feature width of a 2-D array: the length of its rows
(read off the first row, as `shape[1]`). -/
def tableWidth (t : Table) : Nat := (t.headD []).length

/-- Pointwise addition of two rows (numpy `+` on equal-width rows). -/
def rowAdd (a b : Row) : Row := List.zipWith (· + ·) a b

/-- The caller-supplied index input of `forward`: either a 1-D integer
array or a 2-D integer array (`ids.ndim == 2`). -/
inductive Ids where
  | one : List Int → Ids
  | two : List (List Int) → Ids
deriving DecidableEq

/-- The shape of an index input, as numpy reports it. -/
def idsShape : Ids → List Nat
  | .one l => [l.length]
  | .two m => [m.length, (m.headD []).length]

/-- The layer state relevant to `embed.py`: the dimension slots `nO` and
`nV` (unset until resolved), the `column` attribute, and the `vectors`
parameter (unset until `init` stores it). -/
structure Model where
  nO : Option Nat
  nV : Option Nat
  column : Nat
  vectors : Option Table
deriving DecidableEq

/-- The index-safety clamp of `forward` (`ids[ids >= nV] = 0`), applied
to a single value: a value `>= nV` is rewritten to `0`, anything else —
including a negative value — is left unchanged. -/
def clampIdx (nV : Nat) (v : Int) : Int := if (nV : Int) ≤ v then 0 else v

/-- Row gather `vectors[i]` with numpy index semantics: a nonnegative
index selects that row, a negative index counts from the end. -/
def npRow (t : Table) (i : Int) : Row :=
  if 0 ≤ i then t.getD i.toNat [] else t.getD (t.length - (-i).toNat) []

/-- The input normalization of `forward`: a 2-D input is replaced by its
`column`-th column (`ids = ids[:, column]`), a 1-D input is used as-is. -/
def selectIds (c : Nat) : Ids → List Int
  | .one l => l
  | .two m => m.map (fun row => row.getD c 0)

/-- The effect of `ids[ids >= nV] = 0` on one row of a 2-D input, where
`ids` is the view `ids[:, c]`: only the entry in column `c` is clamped,
every other entry of the row is untouched. -/
def clampColumn (c nV : Nat) (row : List Int) : List Int :=
  row.set c (clampIdx nV (row.getD c 0))

/-- The in-place mutation `forward` performs on the caller's index array
(lines 35–37 of `embed.py`): for a 1-D input every entry is clamped; for
a 2-D input the column selection is a view, so the clamp writes through
to column `column` of the caller's matrix and nothing else. -/
def mutatedIds (c nV : Nat) : Ids → Ids
  | .one l => .one (l.map (clampIdx nV))
  | .two m => .two (m.map (clampColumn c nV))

/-- The `forward` function of `embed.py`.  `get_dim("nV")` and
`get_param("vectors")` fail (configuration/usage error, modelled as
`none`) when unset.  On success it returns the gathered output, the
clamped 1-D index list captured by the backward closure, and the
post-call state of the caller's index array.  The backward closure
itself is `backprop` below, applied to the captured list. -/
def forward (m : Model) (ids0 : Ids) (is_train : Bool) :
    Option (Table × List Int × Ids) :=
  match m.nV, m.vectors with
  | some nV, some vectors =>
      let ids := (selectIds m.column ids0).map (clampIdx nV)
      some (ids.map (npRow vectors), ids, mutatedIds m.column nV ids0)
  | _, _ => none

/-- One step of scatter-add: accumulate one value row into the
destination at one index. -/
def scatterStep (d : Table) (p : Int × Row) : Table :=
  d.set p.1.toNat (rowAdd (d.getD p.1.toNat []) p.2)

/-- The accumulation loop of scatter-add over the paired (index, row)
list. -/
def scatterGo (d : Table) (l : List (Int × Row)) : Table := l.foldl scatterStep d

/-- Modelled from the spec: the external primitive
`model.ops.scatter_add(destination, indices, values)` — accumulates
`values` rows into `destination` at `indices`, summing on duplicate
indices.  It expects one value row per index, each of the destination's
row width, and indices addressing destination rows; anything else is a
shape/index error, modelled as `none`. -/
def scatter_add (dest : Table) (ids : List Int) (vals : Table) : Option Table :=
  if ids.length = vals.length
      ∧ (∀ v ∈ vals, v.length = tableWidth dest)
      ∧ (∀ i ∈ ids, 0 ≤ i ∧ i < (dest.length : Int))
  then some (scatterGo dest (ids.zip vals))
  else none

/-- The backward closure of `embed.py` (lines 40–44), with the captured
clamped `ids` and the table `vectors` passed explicitly.  It allocates a
zero-filled buffer of the table's shape, scatter-adds the output
gradient into it, submits the buffer via `inc_grad("vectors", ·)`, and
returns a zero-filled integer array of the captured ids' shape and
dtype.  The result pairs the buffer submitted to `inc_grad` with that
returned input gradient; `none` models an error raised before
`inc_grad` is reached, so nothing is submitted to the accumulator. -/
def backprop (vectors : Table) (ids : List Int) (d_output : Table) :
    Option (Table × List Int) :=
  (scatter_add (zeroTable vectors.length (tableWidth vectors)) ids d_output).map
    (fun d_vectors => (d_vectors, List.replicate ids.length (0 : Int)))

/-- Modelled from the spec: the width-inference helper `get_width` —
given an example output tensor, reports its feature width. -/
def get_width (y : Table) : Nat := tableWidth y

/-- The `init` closure built by `create_init(initFn)` in `embed.py`
(lines 50–57).  `set_dim` is modelled from the spec as recording the
value in the dimension slot; `get_dim` of an unset dimension is a
configuration error ("dimension not resolved"), modelled as `none`.
When `Y` is provided, `nO` is set to `get_width Y`; then the table is
allocated as zeros of shape `(nV, nO)`, passed through `initFn`, and
stored as the `vectors` parameter. -/
def init (initFn : Table → Table) (m : Model) (x : Option Ids) (y : Option Table) :
    Option Model :=
  let m1 := match y with
    | some yv => { m with nO := some (get_width yv) }
    | none => m
  match m1.nV, m1.nO with
  | some nV, some nO => some { m1 with vectors := some (initFn (zeroTable nV nO)) }
  | _, _ => none

/-- The value `nO` holds after the `Y`-inference step of `init`. -/
def effNO (m : Model) (y : Option Table) : Option Nat :=
  match y with
  | some yv => some (get_width yv)
  | none => m.nO

/-- The output-gradient rows associated with table row `r`: the rows of
`vals` whose paired index equals `r`, in order, duplicates kept. -/
def gradRowsAt (ids : List Int) (vals : Table) (r : Nat) : Table :=
  ((ids.zip vals).filter (fun p => p.1 == (r : Int))).map Prod.snd

/-- The sum of a list of rows of width `nO`, starting from the zero row. -/
def sumRows (nO : Nat) (rows : Table) : Row := rows.foldl rowAdd (zeroRow nO)

/-- Entry `(i, j)` of a 2-D integer array, with `0` as the out-of-range
default. -/
def entry2 (m : List (List Int)) (i j : Nat) : Int := (m.getD i []).getD j 0

/-- The clamp fixes `0`. -/
theorem clampIdx_zero (nV : Nat) : clampIdx nV 0 = 0 := by
  unfold clampIdx; split <;> rfl

/-- On a nonnegative value the clamp lands in `[0, nV)` whenever `0 < nV`. -/
theorem clampIdx_nonneg_lt (nV : Nat) (v : Int) (h0 : 0 ≤ v) (hp : 0 < nV) :
    0 ≤ clampIdx nV v ∧ (clampIdx nV v).toNat < nV := by
  unfold clampIdx; split <;> omega

/-- `getD` commutes with mapping the clamp over a 1-D index list. -/
theorem getD_map_clampIdx (nV : Nat) (l : List Int) (i : Nat) :
    (l.map (clampIdx nV)).getD i 0 = clampIdx nV (l.getD i 0) := by
  by_cases h : i < l.length
  · rw [List.getD_eq_getElem _ _ (by simpa using h), List.getD_eq_getElem _ _ h,
      List.getElem_map]
  · rw [List.getD_eq_default _ _ (by simpa using (by omega : l.length ≤ i)),
      List.getD_eq_default _ _ (by omega), clampIdx_zero]

/-- C2: on an initialized layer with a well-formed `(nV, W)` table and a
1-D sequence of nonnegative indices, `forward` succeeds (no error even
for too-large indices), the output has shape `(N, W)`, and row `i` of
the output is the table row at the clamped index (`0` when
`ids[i] ≥ nV`, `ids[i]` otherwise). -/
theorem forward_shape_and_lookup (m : Model) (nV W : Nat) (vectors : Table)
    (ids : List Int) (b : Bool)
    (hnV : m.nV = some nV) (hvec : m.vectors = some vectors)
    (hlen : vectors.length = nV) (hpos : 0 < nV)
    (hW : ∀ row ∈ vectors, row.length = W)
    (hnn : ∀ v ∈ ids, 0 ≤ v) :
    ∃ out capt mu, forward m (.one ids) b = some (out, capt, mu)
      ∧ out.length = ids.length
      ∧ (∀ row ∈ out, row.length = W)
      ∧ ∀ i : Nat, i < ids.length →
          out.getD i [] = vectors.getD (clampIdx nV (ids.getD i 0)).toNat [] := by
  refine ⟨(ids.map (clampIdx nV)).map (npRow vectors), ids.map (clampIdx nV),
    mutatedIds m.column nV (.one ids), ?_, by simp, ?_, ?_⟩
  · unfold forward; rw [hnV, hvec]; rfl
  · intro row hrow
    obtain ⟨v, hv, rfl⟩ := List.mem_map.mp hrow
    obtain ⟨v0, hv0, rfl⟩ := List.mem_map.mp hv
    obtain ⟨h0, hlt⟩ := clampIdx_nonneg_lt nV v0 (hnn v0 hv0) hpos
    unfold npRow
    rw [if_pos h0, List.getD_eq_getElem vectors [] (by omega)]
    exact hW _ (List.getElem_mem _)
  · intro i hi
    have hi2 : i < ((ids.map (clampIdx nV)).map (npRow vectors)).length := by
      simpa using hi
    rw [List.getD_eq_getElem ((ids.map (clampIdx nV)).map (npRow vectors)) [] hi2,
      List.getElem_map, List.getElem_map, List.getD_eq_getElem ids 0 hi]
    obtain ⟨h0, _⟩ := clampIdx_nonneg_lt nV (ids[i]) (hnn _ (List.getElem_mem _)) hpos
    unfold npRow
    rw [if_pos h0]

/-- Witness for C2: `nV = 4`, `W = 1`, indices `[1, 10]` (the second is
out of range and clamps to row 0, raising no error). -/
theorem forward_shape_and_lookup_witness :
    ∃ out capt mu,
      forward ⟨some 1, some 4, 0, some [[10], [20], [30], [40]]⟩ (.one [1, 10]) true
          = some (out, capt, mu)
        ∧ out.length = ([1, 10] : List Int).length
        ∧ (∀ row ∈ out, row.length = 1)
        ∧ ∀ i : Nat, i < ([1, 10] : List Int).length →
            out.getD i [] = ([[10], [20], [30], [40]] : Table).getD
              (clampIdx 4 (([1, 10] : List Int).getD i 0)).toNat [] :=
  forward_shape_and_lookup _ 4 1 _ _ true rfl rfl (by decide) (by decide)
    (by decide) (by decide)

/-- The clamp on one row of a 2-D batch touches the selected column and
nothing else. -/
theorem clampColumn_getD (c nV : Nat) (row : List Int) (j : Nat) :
    (clampColumn c nV row).getD j 0
      = if j = c then clampIdx nV (row.getD j 0) else row.getD j 0 := by
  unfold clampColumn
  by_cases hjc : j = c
  · subst hjc
    rw [if_pos rfl]
    by_cases hc : j < row.length
    · rw [List.getD_eq_getElem (row.set j (clampIdx nV (row.getD j 0))) 0
        (by simpa using hc), List.getElem_set, if_pos rfl]
    · rw [List.set_eq_of_length_le (by omega),
        List.getD_eq_default row 0 (by omega), clampIdx_zero]
  · rw [if_neg hjc]
    by_cases hj : j < row.length
    · rw [List.getD_eq_getElem (row.set c (clampIdx nV (row.getD c 0))) 0
        (by simpa using hj), List.getElem_set, if_neg (fun h => hjc h.symm),
        List.getD_eq_getElem row 0 hj]
    · rw [List.getD_eq_default (row.set c (clampIdx nV (row.getD c 0))) 0
        (by simpa using (by omega : row.length ≤ j)),
        List.getD_eq_default row 0 (by omega)]

/-- `getD` with the empty-row default commutes with mapping the
column clamp over a 2-D batch. -/
theorem getD_map_clampColumn (c nV : Nat) (mat : List (List Int)) (i : Nat) :
    (mat.map (clampColumn c nV)).getD i [] = clampColumn c nV (mat.getD i []) := by
  by_cases h : i < mat.length
  · rw [List.getD_eq_getElem (mat.map (clampColumn c nV)) [] (by simpa using h),
      List.getD_eq_getElem mat [] h, List.getElem_map]
  · rw [List.getD_eq_default (mat.map (clampColumn c nV)) []
        (by simpa using (by omega : mat.length ≤ i)),
      List.getD_eq_default mat [] (by omega)]
    rfl

/-- C10: the mutation `forward` performs on the caller's index array: for
a 1-D input every entry `≥ nV` becomes `0` (each entry becomes its
clamp); for a 2-D input exactly the selected column is clamped the same
way and every other entry is unchanged. -/
theorem forward_mutates_input (m : Model) (nV : Nat) (vectors : Table) (b : Bool)
    (hnV : m.nV = some nV) (hvec : m.vectors = some vectors) :
    (∀ l out capt mut1, forward m (.one l) b = some (out, capt, .one mut1) →
        mut1.length = l.length
          ∧ ∀ i : Nat, mut1.getD i 0 = clampIdx nV (l.getD i 0))
      ∧ (∀ mat out capt mut2, forward m (.two mat) b = some (out, capt, .two mut2) →
        mut2.length = mat.length
          ∧ ∀ i j : Nat, entry2 mut2 i j
              = if j = m.column then clampIdx nV (entry2 mat i j)
                else entry2 mat i j) := by
  constructor
  · intro l out capt mut1 hf
    unfold forward at hf
    rw [hnV, hvec] at hf
    simp only [Option.some.injEq, Prod.mk.injEq, mutatedIds, Ids.one.injEq] at hf
    obtain ⟨-, -, hmut⟩ := hf
    subst hmut
    exact ⟨by simp, fun i => getD_map_clampIdx nV l i⟩
  · intro mat out capt mut2 hf
    unfold forward at hf
    rw [hnV, hvec] at hf
    simp only [Option.some.injEq, Prod.mk.injEq, mutatedIds, Ids.two.injEq] at hf
    obtain ⟨-, -, hmut⟩ := hf
    subst hmut
    refine ⟨by simp, fun i j => ?_⟩
    unfold entry2
    rw [getD_map_clampColumn m.column nV mat i]
    exact clampColumn_getD m.column nV (mat.getD i []) j

/-- Witness for C10: `nV = 4`, `column = 1`, 2-D input `[[9,5],[7,1]]`;
after `forward` the caller's matrix reads `[[9,0],[7,1]]` — only the
out-of-range entry of the selected column was rewritten. -/
theorem forward_mutates_input_witness :
    ([[9, 0], [7, 1]] : List (List Int)).length
        = ([[9, 5], [7, 1]] : List (List Int)).length
      ∧ ∀ i j : Nat, entry2 [[9, 0], [7, 1]] i j
          = if j = (⟨some 1, some 4, 1, some [[10], [20], [30], [40]]⟩ : Model).column
            then clampIdx 4 (entry2 [[9, 5], [7, 1]] i j)
            else entry2 [[9, 5], [7, 1]] i j :=
  (forward_mutates_input ⟨some 1, some 4, 1, some [[10], [20], [30], [40]]⟩ 4
      [[10], [20], [30], [40]] true rfl rfl).2
    [[9, 5], [7, 1]] [[10], [20]] [0, 1] [[9, 0], [7, 1]] (by decide)

/-- C7: for every 2-D index batch and every layer state, `forward` on the
batch produces the same output and the same captured indices for the
backward closure as `forward` on the 1-D sequence obtained by selecting
the `column`-th entry of each row (the two also fail together when the
layer is uninitialized). -/
theorem forward_on_matrix_eq_forward_on_column (m : Model)
    (mat : List (List Int)) (b : Bool) :
    (forward m (.two mat) b).map (fun r => (r.1, r.2.1))
      = (forward m (.one (mat.map (fun row => row.getD m.column 0))) b).map
          (fun r => (r.1, r.2.1)) := by
  unfold forward
  cases m.nV <;> cases m.vectors <;> simp [selectIds]

/-- C8: the `is_train` flag changes nothing observable about `forward`:
the two runs return identical results (same output, same captured
indices for the backward closure, same input mutation), and the closure
is constructed in one run exactly when it is in the other. -/
theorem forward_ignores_is_train (m : Model) (ids : Ids) :
    forward m ids true = forward m ids false
      ∧ ((forward m ids true).isSome ↔ (forward m ids false).isSome) := by
  refine ⟨?_, ?_⟩ <;> unfold forward <;> cases m.nV <;> cases m.vectors <;> simp

/-- C9: the clamp rewrites only values `>= nV`; a negative value is left
unchanged by the clamp (in particular it does not become row `0`), is
outside `[0, nV)`, and is used as-is by the table gather. -/
theorem clamp_leaves_negative_unchanged (nV : Nat) (v : Int) (hneg : v < 0) :
    clampIdx nV v = v ∧ ¬ 0 ≤ clampIdx nV v
      ∧ ∀ t : Table, npRow t (clampIdx nV v) = npRow t v := by
  have hlt : ¬ (nV : Int) ≤ v := by omega
  refine ⟨by simp [clampIdx, hlt], ?_, ?_⟩
  · simp [clampIdx, hlt]; omega
  · intro t; simp [clampIdx, hlt]

/-- Witness for C9 at `nV = 3`, `v = -1`. -/
theorem clamp_leaves_negative_unchanged_witness :
    clampIdx 3 (-1) = -1 ∧ ¬ 0 ≤ clampIdx 3 (-1)
      ∧ ∀ t : Table, npRow t (clampIdx 3 (-1)) = npRow t (-1) :=
  clamp_leaves_negative_unchanged 3 (-1) (by decide)

/-- Counterexample to C3: on a layer whose `nO` was already set to `5`,
`init` with an example output of width `8` ends with `nO = 8`, not the
previously set `5` — `set_dim("nO", get_width(Y))` runs whenever `Y` is
provided, with no check that `nO` is still unset. -/
theorem init_overwrites_preset_nO_cex :
    (init (fun t => t) ⟨some 5, some 1, 0, none⟩ none
          (some [List.replicate 8 (0 : ℤ)])).map Model.nO = some (some 8)
      ∧ (some (8 : Nat) : Option Nat) ≠ some 5 := by
  exact ⟨rfl, by decide⟩

/-- C3 (amended): during `init`, whenever an example output is provided
its feature width is recorded as `nO` unconditionally — overwriting any
previously set `output_width` — and `nO` is left unchanged only when no
example output is given. -/
theorem init_nO_inference (f : Table → Table) (m : Model) (x : Option Ids) :
    (∀ y m', init f m x (some y) = some m' → m'.nO = some (get_width y))
      ∧ (∀ m', init f m x none = some m' → m'.nO = m.nO) := by
  obtain ⟨nO0, nV0, col, vec⟩ := m
  constructor
  · intro y m' h
    cases nV0 with
    | none => exact absurd h (by simp [init])
    | some nVv =>
      have he : init f ⟨nO0, some nVv, col, vec⟩ x (some y)
          = some ⟨some (get_width y), some nVv, col,
              some (f (zeroTable nVv (get_width y)))⟩ := rfl
      rw [he] at h
      injection h with h
      rw [← h]
  · intro m' h
    cases nV0 with
    | none => exact absurd h (by simp [init])
    | some nVv =>
      cases nO0 with
      | none => exact absurd h (by simp [init])
      | some nOv =>
        have he : init f ⟨some nOv, some nVv, col, vec⟩ x none
            = some ⟨some nOv, some nVv, col, some (f (zeroTable nVv nOv))⟩ := rfl
        rw [he] at h
        injection h with h
        rw [← h]

/-- Witness for C3 (amended): a layer with `nO` preset to `5` ends with
`nO = 8` after `init` with an example output of width `8`. -/
theorem init_nO_inference_witness :
    (⟨some 8, some 1, 0, some (zeroTable 1 8)⟩ : Model).nO
      = some (get_width [List.replicate 8 (0 : ℤ)]) :=
  (init_nO_inference (fun t => t) ⟨some 5, some 1, 0, none⟩ none).1
    [List.replicate 8 (0 : ℤ)] ⟨some 8, some 1, 0, some (zeroTable 1 8)⟩ rfl

/-- C6: `init` fails ("dimension not resolved") when `nV` is unset, and
when `nO` is neither set nor inferable because no example output was
given; when both dimensions resolve it allocates the zero-filled
`(nV, nO)` table, passes it through the supplied filler function, and
stores the result as the `vectors` parameter. -/
theorem init_requires_dims_and_fills (f : Table → Table) (m : Model)
    (x : Option Ids) (y : Option Table) :
    (m.nV = none → init f m x y = none)
      ∧ (m.nO = none → y = none → init f m x y = none)
      ∧ ∀ nV nO, m.nV = some nV → effNO m y = some nO →
          init f m x y = some ⟨some nO, some nV, m.column,
            some (f (zeroTable nV nO))⟩ := by
  obtain ⟨nO0, nV0, col, vec⟩ := m
  refine ⟨?_, ?_, ?_⟩
  · intro h
    cases h
    cases y <;> rfl
  · intro h hy
    cases h
    cases hy
    cases nV0 <;> rfl
  · intro nV nO h1 h2
    cases h1
    cases y with
    | none =>
      cases h2
      rfl
    | some yv =>
      have h3 : get_width yv = nO := by
        have : some (get_width yv) = some nO := h2
        injection this
      rw [← h3]
      rfl

/-- Witness for C6: `nV` unset fails; `nV = 3` with an example output of
width `2` succeeds and stores the filled `(3, 2)` zero table. -/
theorem init_requires_dims_and_fills_witness :
    (init (fun t => t) ⟨some 2, none, 0, none⟩ none none = none)
      ∧ init (fun t => t) ⟨none, some 3, 0, none⟩ none (some [[1, 2]])
          = some ⟨some 2, some 3, 0, some (zeroTable 3 2)⟩ :=
  ⟨(init_requires_dims_and_fills (fun t => t) ⟨some 2, none, 0, none⟩ none none).1 rfl,
    (init_requires_dims_and_fills (fun t => t) ⟨none, some 3, 0, none⟩ none
        (some [[1, 2]])).2.2 3 2 rfl rfl⟩

/-- A zero-filled table with at least one row has the requested width. -/
theorem tableWidth_zeroTable (n w : Nat) (h : 0 < n) :
    tableWidth (zeroTable n w) = w := by
  cases n with
  | zero => omega
  | succ k => simp [tableWidth, zeroTable, zeroRow, List.replicate_succ]

/-- C4: when the backward closure receives a gradient whose shape differs
from the forward output shape `(len(ids), W)` — wrong row count or a row
of the wrong width — the scatter-add is rejected and `backprop` fails
with no buffer ever submitted to `inc_grad` (the `none` result is
produced before the `inc_grad` step is reached). -/
theorem backprop_rejects_shape_mismatch (vectors : Table) (ids : List Int)
    (d_output : Table) (hrows : 0 < vectors.length)
    (hmis : d_output.length ≠ ids.length
        ∨ ∃ row ∈ d_output, row.length ≠ tableWidth vectors) :
    backprop vectors ids d_output = none := by
  have hw : tableWidth (zeroTable vectors.length (tableWidth vectors))
      = tableWidth vectors := tableWidth_zeroTable _ _ hrows
  unfold backprop scatter_add
  rw [if_neg]
  · rfl
  · rintro ⟨h1, h2, -⟩
    rcases hmis with h | ⟨row, hr, hne⟩
    · exact h (by omega)
    · exact hne (by rw [h2 row hr, hw])

/-- Witness for C4: two gradient rows against one captured index. -/
theorem backprop_rejects_shape_mismatch_witness :
    backprop [[1], [2]] [0] [[1], [2]] = none :=
  backprop_rejects_shape_mismatch [[1], [2]] [0] [[1], [2]] (by decide)
    (Or.inl (by decide))

/-- Row `r` of the scatter-add loop's result: the rows paired with index
`r`, folded onto whatever the destination already held at `r`; every
other row of the destination is untouched. -/
theorem scatterGo_getD (l : List (Int × Row)) (d : Table) (r : Nat)
    (hb : ∀ p ∈ l, 0 ≤ p.1 ∧ p.1 < (d.length : Int)) :
    (scatterGo d l).getD r []
      = ((l.filter (fun p => p.1 == (r : Int))).map Prod.snd).foldl rowAdd
          (d.getD r []) := by
  induction l generalizing d with
  | nil => rfl
  | cons p t ih =>
    obtain ⟨hp0, hplt⟩ := hb p (List.mem_cons_self _ _)
    have hbt : ∀ q ∈ t, 0 ≤ q.1 ∧ q.1 < ((scatterStep d p).length : Int) := by
      intro q hq
      have hq2 := hb q (List.mem_cons_of_mem _ hq)
      simpa [scatterStep, List.length_set] using hq2
    have hgo : scatterGo d (p :: t) = scatterGo (scatterStep d p) t := rfl
    rw [hgo, ih (scatterStep d p) hbt]
    by_cases hpr : p.1 = (r : Int)
    · have hrd : r < d.length := by omega
      have hfilter : (p :: t).filter (fun q => q.1 == (r : Int))
          = p :: t.filter (fun q => q.1 == (r : Int)) := by
        simp [List.filter_cons, hpr]
      rw [hfilter, List.map_cons, List.foldl_cons]
      have hstep : (scatterStep d p).getD r [] = rowAdd (d.getD r []) p.2 := by
        unfold scatterStep
        have hnat : p.1.toNat = r := by omega
        rw [hnat, List.getD_eq_getElem (d.set r (rowAdd (d.getD r []) p.2)) []
          (by simpa using hrd), List.getElem_set, if_pos rfl]
      rw [hstep]
    · have hfilter : (p :: t).filter (fun q => q.1 == (r : Int))
          = t.filter (fun q => q.1 == (r : Int)) := by
        simp [List.filter_cons, hpr]
      rw [hfilter]
      have hne : p.1.toNat ≠ r := by omega
      have hstep : (scatterStep d p).getD r [] = d.getD r [] := by
        unfold scatterStep
        by_cases hr : r < d.length
        · rw [List.getD_eq_getElem
              (d.set p.1.toNat (rowAdd (d.getD p.1.toNat []) p.2)) []
              (by simpa using hr),
            List.getElem_set, if_neg hne, List.getD_eq_getElem d [] hr]
        · rw [List.getD_eq_default
              (d.set p.1.toNat (rowAdd (d.getD p.1.toNat []) p.2)) []
              (by simpa using (by omega : d.length ≤ r)),
            List.getD_eq_default d [] (by omega)]
      rw [hstep]

/-- C1: whenever the backward closure runs to completion, the buffer it
submits via `inc_grad` holds, at each table row `r`, exactly the sum of
the output-gradient rows whose captured clamped index equals `r` — an
index repeated `k` times contributes all `k` of its rows — and any row
named by no index is the zero row. -/
theorem backprop_accumulates (vectors : Table) (ids : List Int)
    (d_output g : Table) (ig : List Int)
    (h : backprop vectors ids d_output = some (g, ig)) :
    ∀ r : Nat, r < vectors.length →
      g.getD r [] = sumRows (tableWidth vectors) (gradRowsAt ids d_output r)
        ∧ ((∀ i ∈ ids, i ≠ (r : Int)) →
            g.getD r [] = zeroRow (tableWidth vectors)) := by
  unfold backprop at h
  cases hs : scatter_add (zeroTable vectors.length (tableWidth vectors))
      ids d_output with
  | none => rw [hs] at h; cases h
  | some g' =>
    rw [hs] at h
    simp only [Option.map_some', Option.some.injEq, Prod.mk.injEq] at h
    obtain ⟨hg, -⟩ := h
    subst hg
    unfold scatter_add at hs
    split at hs
    case isFalse => cases hs
    case isTrue hcond =>
      obtain ⟨hlen, hwid, hbound⟩ := hcond
      injection hs with hs
      subst hs
      intro r hr
      have hb : ∀ p ∈ ids.zip d_output, 0 ≤ p.1
          ∧ p.1 < ((zeroTable vectors.length (tableWidth vectors)).length : Int) := by
        intro p hp
        have hp1 := hbound p.1 (List.of_mem_zip hp).1
        simpa [zeroTable] using hp1
      have hz : (zeroTable vectors.length (tableWidth vectors)).getD r []
          = zeroRow (tableWidth vectors) := by
        rw [List.getD_eq_getElem _ _ (by simpa [zeroTable] using hr)]
        simp [zeroTable]
      rw [scatterGo_getD (ids.zip d_output) _ r hb, hz]
      refine ⟨rfl, fun hnone => ?_⟩
      have hfl : (ids.zip d_output).filter (fun p => p.1 == (r : Int)) = [] := by
        rw [List.filter_eq_nil_iff]
        intro p hp
        have hp1 := hnone p.1 (List.of_mem_zip hp).1
        simpa using hp1
      rw [hfl]
      rfl

/-- Witness for C1: indices `[2, 5, 2]` with gradients
`[[1,1],[10,20],[3,4]]` submit a buffer whose row `2` is
`[1,1] + [3,4] = [4,5]` — checked at `r = 2` against a six-row table. -/
theorem backprop_accumulates_witness :
    ([[0, 0], [0, 0], [4, 5], [0, 0], [0, 0], [10, 20]] : Table).getD 2 []
        = sumRows (tableWidth (zeroTable 6 2))
            (gradRowsAt [2, 5, 2] [[1, 1], [10, 20], [3, 4]] 2)
      ∧ ((∀ i ∈ ([2, 5, 2] : List Int), i ≠ (2 : Int)) →
          ([[0, 0], [0, 0], [4, 5], [0, 0], [0, 0], [10, 20]] : Table).getD 2 []
            = zeroRow (tableWidth (zeroTable 6 2))) :=
  backprop_accumulates (zeroTable 6 2) [2, 5, 2] [[1, 1], [10, 20], [3, 4]]
    [[0, 0], [0, 0], [4, 5], [0, 0], [0, 0], [10, 20]] [0, 0, 0]
    (by decide) 2 (by decide)

/-- Counterexample to C5: with `column = 1` and the 2-D input
`[[9,1],[9,3]]`, the backward closure returns a zero array of shape
`(2,)` — the shape of the captured 1-D column — while the original index
array passed to `forward` has shape `(2, 2)`. -/
theorem backprop_input_grad_shape_cex :
    (forward ⟨some 1, some 4, 1, some [[10], [20], [30], [40]]⟩
          (.two [[9, 1], [9, 3]]) true).map (fun r => r.2.1) = some [1, 3]
      ∧ (backprop [[10], [20], [30], [40]] [1, 3] [[5], [7]]).map
            (fun r => [r.2.length]) = some [2]
      ∧ idsShape (.two [[9, 1], [9, 3]]) = [2, 2]
      ∧ ([2] : List Nat) ≠ [2, 2] := by
  refine ⟨rfl, by decide, rfl, by decide⟩

/-- C5 (amended): the backward closure always returns an all-zero array
of the captured clamped 1-D index list's shape and integer dtype — for a
2-D input that is the selected column's shape, not the original
matrix's; for a 1-D input it coincides with the original input's
shape. -/
theorem backprop_input_grad_zero (m : Model) (nV : Nat) (vecm : Table)
    (ids0 : Ids) (b : Bool) (out : Table) (capt : List Int) (mu : Ids)
    (d_output g : Table) (ig : List Int)
    (hnV : m.nV = some nV) (hvec : m.vectors = some vecm)
    (hf : forward m ids0 b = some (out, capt, mu))
    (hb : backprop vecm capt d_output = some (g, ig)) :
    ig = List.replicate capt.length (0 : Int)
      ∧ (∀ z ∈ ig, z = 0)
      ∧ ∀ l, ids0 = .one l → ig.length = l.length := by
  unfold forward at hf
  rw [hnV, hvec] at hf
  simp only [Option.some.injEq, Prod.mk.injEq] at hf
  obtain ⟨-, hcapt, -⟩ := hf
  subst hcapt
  unfold backprop at hb
  cases hs : scatter_add (zeroTable vecm.length (tableWidth vecm))
      ((selectIds m.column ids0).map (clampIdx nV)) d_output with
  | none => rw [hs] at hb; cases hb
  | some g' =>
    rw [hs] at hb
    simp only [Option.map_some', Option.some.injEq, Prod.mk.injEq] at hb
    obtain ⟨-, hig⟩ := hb
    subst hig
    refine ⟨rfl, fun z hz => List.eq_of_mem_replicate hz, fun l hl => ?_⟩
    subst hl
    simp [selectIds]

/-- Witness for C5 (amended): 1-D input `[1, 10]`, captured clamped ids
`[1, 0]`, returned input gradient `[0, 0]`. -/
theorem backprop_input_grad_zero_witness :
    ([0, 0] : List Int) = List.replicate ([1, 0] : List Int).length (0 : Int)
      ∧ (∀ z ∈ ([0, 0] : List Int), z = 0)
      ∧ ∀ l, (Ids.one [1, 10] : Ids) = .one l
          → ([0, 0] : List Int).length = l.length :=
  backprop_input_grad_zero ⟨some 1, some 4, 0, some [[10], [20], [30], [40]]⟩ 4
    [[10], [20], [30], [40]] (.one [1, 10]) true [[20], [10]] [1, 0] (.one [1, 0])
    [[5], [7]] [[7], [5], [0], [0]] [0, 0] rfl rfl (by decide) (by decide)

end ThincEmbed
